import Mathlib

/-!
# x/circuit/client: the transaction commands of the circuit breaker

A shallow embedding of `x/circuit/client/tx.go`: the three command
constructors (`AuthorizeCircuitBreakerCmd`, `TripCircuitBreakerCmd`,
`ResetCircuitBreakerCmd`), the root command `NewTxCmd`, and the part of the
libraries they call that decides what the commands build.

Go strings are Lean strings, a `[]string` is a `List String` (the nil slice
and the empty slice are both `[]`), a Go `error` is an `Option String`
(`none` is `nil`), and a function returning `(T, error)` returns
`Except String T`.  A command run is explicit state passing: it takes the
command's flag set and returns the flag set it leaves together with what the
run ended in.
-/

/-! ## Library: `strings` -/

namespace strings

/-- Cut a character sequence at every occurrence of `sep`: the pieces between
consecutive separators, from left to right. -/
def splitChars (sep : Char) : List Char → List (List Char)
  | [] => [[]]
  | c :: cs =>
    if c = sep then [] :: splitChars sep cs
    else
      match splitChars sep cs with
      | [] => [[c]]
      | h :: t => (c :: h) :: t

/-- Go `strings.Split(s, sep)` for a one-character separator (the only way
the commands call it, with `","`): `s` is sliced at the first `sep`, then the
rest is, and so on; the last piece is what remains. -/
def Split (s : String) (sep : Char) : List String :=
  (splitChars sep s.data).map String.mk

/-- Go `strings.Join(elems, sep)`. -/
def Join : List String → String → String
  | [], _ => ""
  | [a], _ => a
  | a :: b :: rest, sep => a ++ sep ++ Join (b :: rest) sep

/-- The join on character sequences: the pieces with `sep` between
neighbours. -/
def joinChars : List (List Char) → List Char → List Char
  | [], _ => []
  | [a], _ => a
  | a :: b :: rest, sep => a ++ sep ++ joinChars (b :: rest) sep

/-- Go `strings.Count(s, sep)` for a one-character `sep`. -/
def Count (s : String) (sep : Char) : Nat := s.data.count sep

/-- Go `strings.ContainsRune(s, r)`. -/
def ContainsRune (s : String) (r : Char) : Bool := s.data.contains r

end strings

/-! ## Library: `pflag`, `cobra`, and the SDK types the commands use -/

namespace pflag

/-- The flags a command defines, each with its current value. -/
abbrev FlagSet := List (String × String)

/-- Whether a flag of this name is defined in the set. -/
def FlagSet.Defined (f : FlagSet) (name : String) : Bool :=
  f.any (fun p => p.1 == name)

/-- The value of flag `name`, `none` when the flag is not defined. -/
def FlagSet.GetString (f : FlagSet) (name : String) : Option String :=
  (f.find? (fun p => p.1 == name)).map Prod.snd

/-- The `(*FlagSet).Set(name, value)` of pflag: a defined flag takes the
value, an undefined one gives the error "no such flag" and changes nothing. -/
def FlagSet.Set (f : FlagSet) (name value : String) : FlagSet × Option String :=
  if f.Defined name then
    (f.map (fun p => if p.1 == name then (p.1, value) else p), none)
  else (f, some ("no such flag -" ++ name))

end pflag

namespace flags

/-- The constant `flags.FlagFrom` of `client/flags`. -/
def FlagFrom : String := "from"

/-- The `flags.AddTxFlagsToCmd` of `client/flags`, on a command's flag set:
it defines the transaction flags, `FlagFrom` among them with the empty
default.  The commands of this package read and write no other flag, so the
others are left out. -/
def AddTxFlagsToCmd (f : pflag.FlagSet) : pflag.FlagSet :=
  (FlagFrom, "") :: f

end flags

namespace types

/-- The constant `types.ModuleName` of `x/circuit/types`. -/
def ModuleName : String := "circuit"

/-- The four enumerated values of `Permissions_Level` (an `int32`). -/
def Permissions_LEVEL_NONE_UNSPECIFIED : Int := 0
/-- Level `SOME_MSGS`. -/
def Permissions_LEVEL_SOME_MSGS : Int := 1
/-- Level `ALL_MSGS`. -/
def Permissions_LEVEL_ALL_MSGS : Int := 2
/-- Level `SUPER_ADMIN`. -/
def Permissions_LEVEL_SUPER_ADMIN : Int := 3

/-- The Go conversion `types.Permissions_Level(u)` of a `uint64` to the
`int32` enum type: the low 32 bits, read in two's complement. -/
def Permissions_Level (u : Nat) : Int :=
  if u % 2 ^ 32 < 2 ^ 31 then ((u % 2 ^ 32 : Nat) : Int)
  else ((u % 2 ^ 32 : Nat) : Int) - 2 ^ 32

/-- The message `types.Permissions`. -/
structure Permissions where
  Level : Int
  LimitTypeUrls : List String
deriving DecidableEq, Repr

/-- The message `types.MsgAuthorizeCircuitBreaker`. -/
structure MsgAuthorizeCircuitBreaker where
  Granter : String
  Grantee : String
  Permissions : Permissions
deriving DecidableEq, Repr

/-- The message `types.MsgTripCircuitBreaker`. -/
structure MsgTripCircuitBreaker where
  Authority : String
  MsgTypeUrls : List String
deriving DecidableEq, Repr

/-- The message `types.MsgResetCircuitBreaker`. -/
structure MsgResetCircuitBreaker where
  Authority : String
  MsgTypeUrls : List String
deriving DecidableEq, Repr

/-- The constructor `types.NewMsgAuthorizeCircuitBreaker`. -/
def NewMsgAuthorizeCircuitBreaker (granter grantee : String) (permission : Permissions) :
    MsgAuthorizeCircuitBreaker :=
  { Granter := granter, Grantee := grantee, Permissions := permission }

/-- The constructor `types.NewMsgTripCircuitBreaker`. -/
def NewMsgTripCircuitBreaker (authority : String) (urls : List String) :
    MsgTripCircuitBreaker :=
  { Authority := authority, MsgTypeUrls := urls }

/-- The constructor `types.NewMsgResetCircuitBreaker`. -/
def NewMsgResetCircuitBreaker (authority : String) (urls : List String) :
    MsgResetCircuitBreaker :=
  { Authority := authority, MsgTypeUrls := urls }

end types

namespace sdk

/-- An `sdk.Msg` as the commands build it. -/
inductive Msg where
  | Authorize (m : types.MsgAuthorizeCircuitBreaker)
  | Trip (m : types.MsgTripCircuitBreaker)
  | Reset (m : types.MsgResetCircuitBreaker)
deriving DecidableEq, Repr

end sdk

namespace client

/-- The part of `client.Context` the commands read: the signer address that
`GetFromAddress` returns, as the string its bytes convert to. -/
structure Context where
  FromAddress : String
deriving DecidableEq, Repr

/-- The method `(client.Context).GetFromAddress`. -/
def Context.GetFromAddress (c : Context) : String := c.FromAddress

end client

namespace cli

/-- What a command run ends in. -/
inductive Outcome where
  /-- The run returned a non-nil error before building a message. -/
  | err (e : String)
  /-- The run panicked (an index out of range, `Uint64()` out of bound). -/
  | panicked
  /-- The run returned nil without building a message. -/
  | returned
  /-- The run reached `tx.GenerateOrBroadcastTxCLI(clientCtx, cmd.Flags(), msg)`:
  the context and the message it hands on. -/
  | broadcast (clientCtx : client.Context) (msg : sdk.Msg)
deriving DecidableEq, Repr

/-- A command run: the flag set it leaves and what it ended in. -/
structure Result where
  flags : pflag.FlagSet
  out : Outcome
deriving DecidableEq, Repr

/-- The functions of other packages the commands call, whose results depend
on the keyring, the address codec and the number syntax. -/
structure Env where
  /-- The function `client.GetClientTxContext(cmd)`, reading the command's flags. -/
  GetClientTxContext : pflag.FlagSet → Except String client.Context
  /-- The function `sdk.AccAddressFromBech32`: the address bytes, as a string. -/
  AccAddressFromBech32 : String → Except String String
  /-- The function `math.ParseUint`: the unsigned integer the text denotes. -/
  ParseUint : String → Except String Nat
  /-- The function `client.ValidateCmd`, the root command's run. -/
  ValidateCmd : List String → Option String

/-- A `cobra.Command`: the fields the constructors set, the flag set, and
the subcommands registered with `AddCommand`. -/
inductive Command where
  | mk (Use Short Long : String) (DisableFlagParsing : Bool)
      (SuggestionsMinimumDistance : Nat)
      (Args : Option (List String → Option String))
      (RunE : Env → pflag.FlagSet → List String → Result)
      (flags : pflag.FlagSet) (commands : List Command)

namespace Command

/-- Field `Use`. -/
def Use : Command → String
  | mk u _ _ _ _ _ _ _ _ => u

/-- Field `Short`. -/
def Short : Command → String
  | mk _ s _ _ _ _ _ _ _ => s

/-- Field `Long`. -/
def Long : Command → String
  | mk _ _ l _ _ _ _ _ _ => l

/-- Field `Args`, the validator of the positional arguments. -/
def Args : Command → Option (List String → Option String)
  | mk _ _ _ _ _ a _ _ _ => a

/-- Field `RunE`. -/
def RunE : Command → Env → pflag.FlagSet → List String → Result
  | mk _ _ _ _ _ _ r _ _ => r

/-- The flag set `cmd.Flags()`. -/
def Flags : Command → pflag.FlagSet
  | mk _ _ _ _ _ _ _ f _ => f

/-- The registered subcommands. -/
def Commands : Command → List Command
  | mk _ _ _ _ _ _ _ _ cs => cs

/-- The method `(*Command).AddCommand(cmds...)`: the commands are appended
to the subcommand list. -/
def AddCommand : Command → List Command → Command
  | mk u s l d m a r f cs, cmds => mk u s l d m a r f (cs ++ cmds)

/-- The method `(*Command).ValidateArgs`: no validator accepts everything. -/
def ValidateArgs (c : Command) (args : List String) : Option String :=
  match c.Args with
  | none => none
  | some v => v args

/-- The name of a command: the first word of `Use`. -/
def Name (c : Command) : String :=
  String.mk (c.Use.data.takeWhile (fun ch => ch != ' '))

/-- Running the command on positional arguments `args`, with `fs` the
command's flag set as the command line left it: the arguments are validated,
and only then is `RunE` called. -/
def Execute (c : Command) (env : Env) (fs : pflag.FlagSet) (args : List String) : Result :=
  match c.ValidateArgs args with
  | some e => { flags := fs, out := Outcome.err e }
  | none => c.RunE env fs args

end Command

end cli

namespace cobra

/-- The validator `cobra.RangeArgs(min, max)`. -/
def RangeArgs (min max : Nat) (args : List String) : Option String :=
  if args.length < min ∨ args.length > max then
    some ("accepts between " ++ toString min ++ " and " ++ toString max ++ " arg(s), received "
      ++ toString args.length)
  else none

/-- The validator `cobra.ExactArgs(n)`. -/
def ExactArgs (n : Nat) (args : List String) : Option String :=
  if args.length ≠ n then
    some ("accepts " ++ toString n ++ " arg(s), received " ++ toString args.length)
  else none

end cobra

/-! ## The commands of `tx.go` -/

namespace cli

/-- The `RunE` of `AuthorizeCircuitBreakerCmd` (tx.go, lines 48-75). -/
def AuthorizeCircuitBreakerCmd.RunE (env : Env) (fs : pflag.FlagSet) (args : List String) :
    Result :=
  match args[0]? with
  | none => { flags := fs, out := Outcome.panicked }
  | some granter =>
    -- cmd.Flags().Set(flags.FlagFrom, args[0]); the error is dropped
    let fs1 := (fs.Set flags.FlagFrom granter).1
    match env.GetClientTxContext fs1 with
    | Except.error e => { flags := fs1, out := Outcome.err e }
    | Except.ok clientCtx =>
      match args[1]? with
      | none => { flags := fs1, out := Outcome.panicked }
      | some a1 =>
        match env.AccAddressFromBech32 a1 with
        | Except.error e => { flags := fs1, out := Outcome.err e }
        | Except.ok grantee =>
          match args[2]? with
          | none => { flags := fs1, out := Outcome.panicked }
          | some a2 =>
            match env.ParseUint a2 with
            | Except.error e => { flags := fs1, out := Outcome.err e }
            | Except.ok lvl =>
              let typeUrls : List String :=
                if args.length = 4 then strings.Split (args.getD 3 "") ',' else []
              -- lvl.Uint64() panics when lvl does not fit 64 bits
              if lvl < 2 ^ 64 then
                let permission : types.Permissions :=
                  { Level := types.Permissions_Level lvl, LimitTypeUrls := typeUrls }
                let msg := types.NewMsgAuthorizeCircuitBreaker clientCtx.GetFromAddress
                  grantee permission
                { flags := fs1, out := Outcome.broadcast clientCtx (sdk.Msg.Authorize msg) }
              else { flags := fs1, out := Outcome.panicked }

/-- The constructor `AuthorizeCircuitBreakerCmd` (tx.go, lines 34-81). -/
def AuthorizeCircuitBreakerCmd : Command :=
  Command.mk
    "authorize [granter] [grantee] [permission_level] [limit_type_urls]"
    "Authorize an account to trip the circuit breaker."
    "Authorize an account to trip the circuit breaker.\n\t\t\"SOME_MSGS\" =     1,\n\t\t\"ALL_MSGS\" =      2,\n\t\t\"SUPER_ADMIN\" =   3,\n\n\t\tExample: \n\n\t\t<app> circuit authorize [address] [address] 0 \"cosmos.bank.v1beta1.MsgSend,cosmos.bank.v1beta1.MsgMultiSend\"\n\t\t"
    false 0
    (some (cobra.RangeArgs 3 4))
    AuthorizeCircuitBreakerCmd.RunE
    (flags.AddTxFlagsToCmd [])
    []

/-- The `RunE` of `TripCircuitBreakerCmd` (tx.go, lines 95-110). -/
def TripCircuitBreakerCmd.RunE (env : Env) (fs : pflag.FlagSet) (args : List String) :
    Result :=
  match args[0]? with
  | none => { flags := fs, out := Outcome.panicked }
  | some a0 =>
    let fs1 := (fs.Set flags.FlagFrom a0).1
    match env.GetClientTxContext fs1 with
    | Except.error e => { flags := fs1, out := Outcome.err e }
    | Except.ok clientCtx =>
      let msgTypeUrls : List String :=
        if args.length = 4 then strings.Split a0 ',' else []
      let msg := types.NewMsgTripCircuitBreaker clientCtx.GetFromAddress msgTypeUrls
      { flags := fs1, out := Outcome.broadcast clientCtx (sdk.Msg.Trip msg) }

/-- The constructor `TripCircuitBreakerCmd` (tx.go, lines 84-116). -/
def TripCircuitBreakerCmd : Command :=
  Command.mk
    "Disable [type_url]"
    "Disable a message from being executed "
    "Disable a message  from entering the mempool and/or being executed\n\t\t\n\t\tExample: \n\n\t\t<app> circuit authorize trip \"cosmos.bank.v1beta1.MsgSend,cosmos.bank.v1beta1.MsgMultiSend\"\n\t\t"
    false 0
    (some (cobra.ExactArgs 1))
    TripCircuitBreakerCmd.RunE
    (flags.AddTxFlagsToCmd [])
    []

/-- The `RunE` of `ResetCircuitBreakerCmd` (tx.go, lines 130-145). -/
def ResetCircuitBreakerCmd.RunE (env : Env) (fs : pflag.FlagSet) (args : List String) :
    Result :=
  match args[0]? with
  | none => { flags := fs, out := Outcome.panicked }
  | some a0 =>
    let fs1 := (fs.Set flags.FlagFrom a0).1
    match env.GetClientTxContext fs1 with
    | Except.error e => { flags := fs1, out := Outcome.err e }
    | Except.ok clientCtx =>
      let msgTypeUrls : List String :=
        if args.length = 4 then strings.Split a0 ',' else []
      let msg := types.NewMsgResetCircuitBreaker clientCtx.GetFromAddress msgTypeUrls
      { flags := fs1, out := Outcome.broadcast clientCtx (sdk.Msg.Reset msg) }

/-- The constructor `ResetCircuitBreakerCmd` (tx.go, lines 119-151). -/
def ResetCircuitBreakerCmd : Command :=
  Command.mk
    "reset [type_url]"
    "Enable a message to be executed "
    "Enable a message  that was disabled from entering the mempool and/or being executed\n\t\t\n\t\tExample: \n\n\t\t<app> circuit authorize reset \"cosmos.bank.v1beta1.MsgSend,cosmos.bank.v1beta1.MsgMultiSend\"\n\t\t"
    false 0
    (some (cobra.ExactArgs 1))
    ResetCircuitBreakerCmd.RunE
    (flags.AddTxFlagsToCmd [])
    []

/-- The constructor `NewTxCmd` (tx.go, lines 16-31): the root command, with
the subcommands its `AddCommand` call registers. -/
def NewTxCmd : Command :=
  let txCmd := Command.mk
    types.ModuleName
    "Circuit transaction subcommands"
    ""
    true 2
    none
    (fun env fs args =>
      match env.ValidateCmd args with
      | some e => { flags := fs, out := Outcome.err e }
      | none => { flags := fs, out := Outcome.returned })
    []
    []
  txCmd.AddCommand [AuthorizeCircuitBreakerCmd, TripCircuitBreakerCmd]

end cli

/-! ## The evaluator the built permissions are handed to -/

namespace keeper

/-- Modelled from the spec: the Authorization Evaluator of the engine, whose
code is not among the sources.  "CanTripOrReset(actor, typeId) -> bool: true
iff actor.level == SUPER_ADMIN, or level == ALL_MSGS, or (level == SOME_MSGS
and typeId ∈ limitTypeUrls)." -/
def CanTripOrReset (actor : types.Permissions) (typeId : String) : Bool :=
  actor.Level == types.Permissions_LEVEL_SUPER_ADMIN
    || actor.Level == types.Permissions_LEVEL_ALL_MSGS
    || (actor.Level == types.Permissions_LEVEL_SOME_MSGS
        && actor.LimitTypeUrls.contains typeId)

end keeper

/-! ## A concrete environment, for running the commands on explicit inputs -/

namespace sample

/-- The value of a decimal digit. -/
def digit (c : Char) : Option Nat :=
  if '0' ≤ c ∧ c ≤ '9' then some (c.toNat - '0'.toNat) else none

/-- The number a non-empty string of decimal digits denotes, read from the
left with `acc` the value so far. -/
def decimal : List Char → Nat → Option Nat
  | [], acc => some acc
  | c :: cs, acc =>
    match digit c with
    | none => none
    | some d => decimal cs (10 * acc + d)

/-- An environment in which the keyring resolves the non-empty value of the
`from` flag to an address of the same text, every non-empty address text
decodes to itself, and numbers are plain decimal numerals. -/
def env : cli.Env where
  GetClientTxContext fs :=
    match fs.GetString flags.FlagFrom with
    | none => Except.error "flag accessed but not defined: from"
    | some v => if v = "" then Except.error "no key name or address supplied"
                else Except.ok { FromAddress := v }
  AccAddressFromBech32 a :=
    if a = "" then Except.error "empty address string is not allowed" else Except.ok a
  ParseUint s :=
    match s.data with
    | [] => Except.error "cannot convert to big.Int"
    | c :: cs =>
      match decimal (c :: cs) 0 with
      | none => Except.error "cannot convert to big.Int"
      | some n => Except.ok n
  ValidateCmd _ := none

/-- The first type URL of the documented examples. -/
def MsgSend : String := "cosmos.bank.v1beta1.MsgSend"

/-- The second type URL of the documented examples. -/
def MsgMultiSend : String := "cosmos.bank.v1beta1.MsgMultiSend"

/-- A key name, as the granter argument. -/
def granter : String := "alice"

/-- A well-formed bech32 account address, as the grantee argument. -/
def grantee : String := "cosmos1qypqxpq9qcrsszg2pvxq6rs0zqg3yyc5lzv7xu"

/-- The type-URL argument of the documented examples. -/
def documentedUrls : String :=
  "cosmos.bank.v1beta1.MsgSend,cosmos.bank.v1beta1.MsgMultiSend"

end sample

/-! ## Lemmas on `strings.Split` -/

namespace strings

theorem splitChars_ne_nil (sep : Char) (l : List Char) : splitChars sep l ≠ [] := by
  cases l with
  | nil => simp [splitChars]
  | cons c cs =>
    unfold splitChars
    split
    · simp
    · split <;> simp

theorem length_splitChars (sep : Char) (l : List Char) :
    (splitChars sep l).length = l.count sep + 1 := by
  induction l with
  | nil => simp [splitChars]
  | cons c cs ih =>
    unfold splitChars
    by_cases h : c = sep
    · subst h
      simp [ih]
    · have hne : (c == sep) = false := by simpa using h
      rw [if_neg h, List.count_cons, hne]
      cases hs : splitChars sep cs with
      | nil => exact absurd hs (splitChars_ne_nil sep cs)
      | cons p ps =>
        rw [hs] at ih
        simpa using ih

theorem sep_not_mem_of_mem_splitChars (sep : Char) (l p : List Char)
    (hp : p ∈ splitChars sep l) : sep ∉ p := by
  induction l generalizing p with
  | nil =>
    simp [splitChars] at hp
    subst hp
    simp
  | cons c cs ih =>
    unfold splitChars at hp
    by_cases h : c = sep
    · rw [if_pos h] at hp
      rcases List.mem_cons.mp hp with rfl | hp
      · simp
      · exact ih p hp
    · rw [if_neg h] at hp
      cases hs : splitChars sep cs with
      | nil => exact absurd hs (splitChars_ne_nil sep cs)
      | cons q qs =>
        rw [hs] at hp ih
        rcases List.mem_cons.mp hp with rfl | hp
        · intro hmem
          rcases List.mem_cons.mp hmem with heq | hmem
          · exact h heq.symm
          · exact ih q (List.mem_cons_self _ _) hmem
        · exact ih p (List.mem_cons_of_mem _ hp)

theorem joinChars_splitChars (sep : Char) (l : List Char) :
    joinChars (splitChars sep l) [sep] = l := by
  induction l with
  | nil => simp [splitChars, joinChars]
  | cons c cs ih =>
    unfold splitChars
    by_cases h : c = sep
    · subst h
      rw [if_pos rfl]
      cases hs : splitChars c cs with
      | nil => exact absurd hs (splitChars_ne_nil c cs)
      | cons q qs =>
        rw [hs] at ih
        simp [joinChars, ih]
    · rw [if_neg h]
      cases hs : splitChars sep cs with
      | nil => exact absurd hs (splitChars_ne_nil sep cs)
      | cons q qs =>
        rw [hs] at ih
        cases qs with
        | nil =>
          simp [joinChars] at ih ⊢
          exact ih
        | cons r rs =>
          simp [joinChars] at ih ⊢
          exact ih

theorem Join_data (ps : List (List Char)) (sep : String) :
    (Join (ps.map String.mk) sep).data = joinChars ps sep.data := by
  induction ps with
  | nil => simp [Join, joinChars]
  | cons a rest ih =>
    cases rest with
    | nil => simp [Join, joinChars]
    | cons b rest =>
      simp only [List.map_cons, Join, joinChars, String.data_append] at ih ⊢
      rw [ih]

theorem Split_ne_nil (s : String) (sep : Char) : Split s sep ≠ [] := by
  simp [Split, splitChars_ne_nil]

theorem length_Split (s : String) (sep : Char) :
    (Split s sep).length = Count s sep + 1 := by
  simp [Split, Count, length_splitChars]

theorem ContainsRune_of_mem_Split (s : String) (sep : Char) (e : String)
    (he : e ∈ Split s sep) : ContainsRune e sep = false := by
  simp only [Split, List.mem_map] at he
  obtain ⟨p, hp, rfl⟩ := he
  have := sep_not_mem_of_mem_splitChars sep s.data p hp
  simpa [ContainsRune] using this

theorem Join_Split (s : String) (sep : Char) :
    Join (Split s sep) (String.singleton sep) = s := by
  apply String.ext
  have hsep : (String.singleton sep).data = [sep] := rfl
  rw [Split, Join_data, hsep, joinChars_splitChars]

theorem splitChars_of_not_mem (sep : Char) (a : List Char) (h : sep ∉ a) :
    splitChars sep a = [a] := by
  induction a with
  | nil => simp [splitChars]
  | cons c cs ih =>
    have hc : c ≠ sep := fun e => h (e ▸ List.mem_cons_self _ _)
    have hcs : sep ∉ cs := fun e => h (List.mem_cons_of_mem _ e)
    unfold splitChars
    rw [if_neg hc, ih hcs]

theorem splitChars_append_sep (sep : Char) (a r : List Char) (h : sep ∉ a) :
    splitChars sep (a ++ sep :: r) = a :: splitChars sep r := by
  induction a with
  | nil => simp [splitChars]
  | cons c cs ih =>
    have hc : c ≠ sep := fun e => h (e ▸ List.mem_cons_self _ _)
    have hcs : sep ∉ cs := fun e => h (List.mem_cons_of_mem _ e)
    have ih2 := ih hcs
    simp only [List.cons_append, splitChars, if_neg hc]
    simp only [List.append_eq] at ih2 ⊢
    rw [ih2]

theorem splitChars_joinChars (sep : Char) (ps : List (List Char)) (hne : ps ≠ [])
    (h : ∀ p ∈ ps, sep ∉ p) : splitChars sep (joinChars ps [sep]) = ps := by
  induction ps with
  | nil => exact absurd rfl hne
  | cons a rest ih =>
    cases rest with
    | nil =>
      simp only [joinChars]
      exact splitChars_of_not_mem sep a (h a (List.mem_cons_self _ _))
    | cons b rest =>
      have ha : sep ∉ a := h a (List.mem_cons_self _ _)
      have hrest : ∀ p ∈ b :: rest, sep ∉ p := fun p hp => h p (List.mem_cons_of_mem _ hp)
      simp only [joinChars, List.append_assoc, List.singleton_append]
      rw [splitChars_append_sep sep a _ ha, ih (by simp) hrest]

/-- Splitting is the only way to cut a string into comma-free pieces: a
non-empty list of pieces without the separator is what `Split` gives back
from their join. -/
theorem Split_Join (pieces : List String) (sep : Char) (hne : pieces ≠ [])
    (h : ∀ e ∈ pieces, ContainsRune e sep = false) :
    Split (Join pieces (String.singleton sep)) sep = pieces := by
  have hmk : pieces = (pieces.map String.data).map String.mk := by
    simp [List.map_map, Function.comp_def]
  have hd : (Join pieces (String.singleton sep)).data =
      joinChars (pieces.map String.data) [sep] := by
    conv_lhs => rw [hmk]
    rw [Join_data]
    rfl
  unfold Split
  rw [hd, splitChars_joinChars sep _ (by simpa using hne)]
  · exact hmk.symm
  · intro p hp
    obtain ⟨e, he, rfl⟩ := List.mem_map.mp hp
    have := h e he
    simpa [ContainsRune] using this

theorem Split_empty (sep : Char) : Split "" sep = [""] := by
  simp [Split, splitChars]

end strings

/-! ## Lemmas on the flag set and the argument validators -/

namespace pflag

theorem FlagSet.GetString_Set (f : FlagSet) (name value : String)
    (h : f.Defined name = true) : (f.Set name value).1.GetString name = some value := by
  unfold FlagSet.Set
  rw [if_pos h]
  simp only [FlagSet.GetString]
  induction f with
  | nil => simp [FlagSet.Defined] at h
  | cons p ps ih =>
    by_cases hp : p.1 = name
    · simp [List.find?, hp]
    · have hne : (p.1 == name) = false := by simpa using hp
      have hps : FlagSet.Defined ps name = true := by
        simpa [FlagSet.Defined, hne] using h
      simpa [List.find?, hne] using ih hps

theorem FlagSet.Defined_AddTxFlagsToCmd (f : FlagSet) :
    FlagSet.Defined (flags.AddTxFlagsToCmd f) flags.FlagFrom = true := by
  simp [flags.AddTxFlagsToCmd, FlagSet.Defined]

end pflag

namespace cobra

theorem RangeArgs_three_four (args : List String) :
    RangeArgs 3 4 args = none ↔ args.length = 3 ∨ args.length = 4 := by
  unfold RangeArgs
  constructor
  · intro h
    split at h
    · simp at h
    · omega
  · intro h
    rw [if_neg (by omega)]

theorem ExactArgs_one (args : List String) :
    ExactArgs 1 args = none ↔ args.length = 1 := by
  unfold ExactArgs
  constructor
  · intro h
    split at h
    · simp at h
    · omega
  · intro h
    rw [if_neg (by omega)]

end cobra

/-! ## Lemmas on the command runs -/

namespace cli

theorem Authorize_ValidateArgs (args : List String) :
    AuthorizeCircuitBreakerCmd.ValidateArgs args = none ↔
      args.length = 3 ∨ args.length = 4 :=
  cobra.RangeArgs_three_four args

theorem Trip_ValidateArgs (args : List String) :
    TripCircuitBreakerCmd.ValidateArgs args = none ↔ args.length = 1 :=
  cobra.ExactArgs_one args

theorem Reset_ValidateArgs (args : List String) :
    ResetCircuitBreakerCmd.ValidateArgs args = none ↔ args.length = 1 :=
  cobra.ExactArgs_one args

/-- A run whose arguments are refused ends in the validator's error. -/
theorem Execute_of_refused (c : Command) (env : Env) (fs : pflag.FlagSet)
    (args : List String) (e : String) (h : c.ValidateArgs args = some e) :
    c.Execute env fs args = { flags := fs, out := Outcome.err e } := by
  simp [Command.Execute, h]

/-- A run whose arguments are accepted is the run of `RunE`. -/
theorem Execute_of_accepted (c : Command) (env : Env) (fs : pflag.FlagSet)
    (args : List String) (h : c.ValidateArgs args = none) :
    c.Execute env fs args = c.RunE env fs args := by
  simp [Command.Execute, h]

/-- A run that hands on a message had its arguments accepted. -/
theorem accepted_of_broadcast (c : Command) (env : Env) (fs : pflag.FlagSet)
    (args : List String) (ctx : client.Context) (msg : sdk.Msg)
    (h : (c.Execute env fs args).out = Outcome.broadcast ctx msg) :
    c.ValidateArgs args = none := by
  cases hv : c.ValidateArgs args with
  | none => rfl
  | some e => rw [Execute_of_refused c env fs args e hv] at h; simp at h

/-- What the Authorize run read when it hands on a message. -/
theorem Authorize_RunE_broadcast (env : Env) (fs : pflag.FlagSet) (args : List String)
    (ctx : client.Context) (msg : sdk.Msg)
    (h : (AuthorizeCircuitBreakerCmd.RunE env fs args).out = Outcome.broadcast ctx msg) :
    ∃ a0 a1 a2 g n, args[0]? = some a0 ∧ args[1]? = some a1 ∧ args[2]? = some a2 ∧
      env.GetClientTxContext (fs.Set flags.FlagFrom a0).1 = Except.ok ctx ∧
      env.AccAddressFromBech32 a1 = Except.ok g ∧
      env.ParseUint a2 = Except.ok n ∧ n < 2 ^ 64 ∧
      msg = sdk.Msg.Authorize
        { Granter := ctx.GetFromAddress, Grantee := g,
          Permissions :=
            { Level := types.Permissions_Level n,
              LimitTypeUrls :=
                if args.length = 4 then strings.Split (args.getD 3 "") ',' else [] } } := by
  unfold AuthorizeCircuitBreakerCmd.RunE at h
  cases h0 : args[0]? with
  | none => simp [h0] at h
  | some a0 =>
    cases hc : env.GetClientTxContext (fs.Set flags.FlagFrom a0).1 with
    | error e => simp [h0, hc] at h
    | ok c =>
      cases h1 : args[1]? with
      | none => simp [h0, hc, h1] at h
      | some a1 =>
        cases hg : env.AccAddressFromBech32 a1 with
        | error e => simp [h0, hc, h1, hg] at h
        | ok g =>
          cases h2 : args[2]? with
          | none => simp [h0, hc, h1, hg, h2] at h
          | some a2 =>
            cases hn : env.ParseUint a2 with
            | error e => simp [h0, hc, h1, hg, h2, hn] at h
            | ok n =>
              by_cases hlt : n < 2 ^ 64
              · simp only [h0, hc, h1, hg, h2, hn, if_pos hlt, Outcome.broadcast.injEq,
                  types.NewMsgAuthorizeCircuitBreaker] at h
                obtain ⟨hctx, hmsg⟩ := h
                subst hctx
                exact ⟨a0, a1, a2, g, n, rfl, rfl, rfl, hc, hg, hn, hlt, hmsg.symm⟩
              · simp only [h0, hc, h1, hg, h2, hn, if_neg hlt] at h
                simp at h

/-- The Authorize run hands on a message once the context, the grantee and
the level are read and the level fits 64 bits. -/
theorem Authorize_RunE_of_read (env : Env) (fs : pflag.FlagSet) (args : List String)
    (a0 a1 a2 g : String) (n : Nat) (ctx : client.Context)
    (h0 : args[0]? = some a0) (h1 : args[1]? = some a1) (h2 : args[2]? = some a2)
    (hc : env.GetClientTxContext (fs.Set flags.FlagFrom a0).1 = Except.ok ctx)
    (hg : env.AccAddressFromBech32 a1 = Except.ok g)
    (hn : env.ParseUint a2 = Except.ok n) (hlt : n < 2 ^ 64) :
    AuthorizeCircuitBreakerCmd.RunE env fs args =
      { flags := (fs.Set flags.FlagFrom a0).1,
        out := Outcome.broadcast ctx (sdk.Msg.Authorize
          { Granter := ctx.GetFromAddress, Grantee := g,
            Permissions :=
              { Level := types.Permissions_Level n,
                LimitTypeUrls :=
                  if args.length = 4 then strings.Split (args.getD 3 "") ',' else [] } }) } := by
  unfold AuthorizeCircuitBreakerCmd.RunE
  simp only [h0, h1, h2, hc, hg, hn, if_pos hlt, types.NewMsgAuthorizeCircuitBreaker]

/-- The Trip run on one argument. -/
theorem Trip_RunE_one (env : Env) (fs : pflag.FlagSet) (a0 : String) :
    TripCircuitBreakerCmd.RunE env fs [a0] =
      { flags := (fs.Set flags.FlagFrom a0).1,
        out := match env.GetClientTxContext (fs.Set flags.FlagFrom a0).1 with
          | Except.error e => Outcome.err e
          | Except.ok ctx => Outcome.broadcast ctx (sdk.Msg.Trip
              { Authority := ctx.GetFromAddress, MsgTypeUrls := [] }) } := by
  unfold TripCircuitBreakerCmd.RunE
  simp only [List.getElem?_cons_zero, List.length_singleton]
  cases env.GetClientTxContext (fs.Set flags.FlagFrom a0).1 <;>
    simp [types.NewMsgTripCircuitBreaker]

/-- The Reset run on one argument. -/
theorem Reset_RunE_one (env : Env) (fs : pflag.FlagSet) (a0 : String) :
    ResetCircuitBreakerCmd.RunE env fs [a0] =
      { flags := (fs.Set flags.FlagFrom a0).1,
        out := match env.GetClientTxContext (fs.Set flags.FlagFrom a0).1 with
          | Except.error e => Outcome.err e
          | Except.ok ctx => Outcome.broadcast ctx (sdk.Msg.Reset
              { Authority := ctx.GetFromAddress, MsgTypeUrls := [] }) } := by
  unfold ResetCircuitBreakerCmd.RunE
  simp only [List.getElem?_cons_zero, List.length_singleton]
  cases env.GetClientTxContext (fs.Set flags.FlagFrom a0).1 <;>
    simp [types.NewMsgResetCircuitBreaker]

/-- The flag set every Authorize run leaves, whatever it ends in. -/
theorem Authorize_RunE_flags (env : Env) (fs : pflag.FlagSet) (args : List String)
    (a0 : String) (h0 : args[0]? = some a0) :
    (AuthorizeCircuitBreakerCmd.RunE env fs args).flags = (fs.Set flags.FlagFrom a0).1 := by
  unfold AuthorizeCircuitBreakerCmd.RunE
  simp only [h0]
  repeat (first | rfl | split)

theorem length_one_eq (args : List String) (h : args.length = 1) :
    ∃ a0, args = [a0] := by
  match args, h with
  | [a0], _ => exact ⟨a0, rfl⟩

end cli

/-! ## The claims -/

namespace cli

/-- C1, the code at the documented Trip invocation: with the one argument
"cosmos.bank.v1beta1.MsgSend,cosmos.bank.v1beta1.MsgMultiSend" the argument
list is accepted and, in every environment, the run either fails to resolve
the signer or hands on a MsgTripCircuitBreaker whose type-URL list is empty,
although the argument split at commas is the two-element list
[cosmos.bank.v1beta1.MsgSend, cosmos.bank.v1beta1.MsgMultiSend]. -/
theorem trip_documented_invocation_builds_no_urls (env : Env) (fs : pflag.FlagSet) :
    TripCircuitBreakerCmd.ValidateArgs [sample.documentedUrls] = none ∧
    (TripCircuitBreakerCmd.Execute env fs [sample.documentedUrls]).out =
      (match env.GetClientTxContext (fs.Set flags.FlagFrom sample.documentedUrls).1 with
        | Except.error e => Outcome.err e
        | Except.ok ctx => Outcome.broadcast ctx (sdk.Msg.Trip
            { Authority := ctx.GetFromAddress, MsgTypeUrls := [] })) ∧
    strings.Split sample.documentedUrls ',' = [sample.MsgSend, sample.MsgMultiSend] ∧
    (TripCircuitBreakerCmd.Execute sample.env TripCircuitBreakerCmd.Flags
        [sample.documentedUrls]).out =
      Outcome.broadcast { FromAddress := sample.documentedUrls } (sdk.Msg.Trip
        { Authority := sample.documentedUrls, MsgTypeUrls := [] }) := by
  refine ⟨by decide, ?_, by decide, by decide⟩
  rw [Execute_of_accepted _ _ _ _ (by decide)]
  show (TripCircuitBreakerCmd.RunE env fs [sample.documentedUrls]).out = _
  rw [Trip_RunE_one]

/-- C2, the code of NewTxCmd: the subcommand list it registers is exactly
[Authorize, Trip]; the Reset command, whether looked up by its Use line or by
its name, is not in it. -/
theorem NewTxCmd_registers_two_subcommands :
    NewTxCmd.Commands.map Command.Use =
      [AuthorizeCircuitBreakerCmd.Use, TripCircuitBreakerCmd.Use] ∧
    NewTxCmd.Commands.map Command.Name = ["authorize", "Disable"] ∧
    ResetCircuitBreakerCmd.Name = "reset" ∧
    ResetCircuitBreakerCmd.Use ∉ NewTxCmd.Commands.map Command.Use ∧
    ResetCircuitBreakerCmd.Name ∉ NewTxCmd.Commands.map Command.Name := by
  decide

/-- C3 fails as stated: the accepted argument list [alice, grantee, "1"]
makes the Authorize command hand on a Permission of level SOME_MSGS (1) whose
LimitTypeUrls list is empty. -/
theorem authorize_some_msgs_with_empty_urls :
    AuthorizeCircuitBreakerCmd.ValidateArgs [sample.granter, sample.grantee, "1"] = none ∧
    (AuthorizeCircuitBreakerCmd.Execute sample.env AuthorizeCircuitBreakerCmd.Flags
        [sample.granter, sample.grantee, "1"]).out =
      Outcome.broadcast { FromAddress := sample.granter } (sdk.Msg.Authorize
        { Granter := sample.granter, Grantee := sample.grantee,
          Permissions :=
            { Level := types.Permissions_LEVEL_SOME_MSGS, LimitTypeUrls := [] } }) := by
  decide

/-- C3 as amended: the Authorize command does not validate the Permission it
builds.  Whenever it hands on a Permission, the argument list has 3 or 4
arguments; with 4 arguments the LimitTypeUrls list is non-empty (so it is for
a level SOME_MSGS permission built from 4 arguments), and with 3 arguments it
is empty whatever the level.  With 3 arguments the Permission is handed on
exactly when the signer resolves, the grantee parses and the level parses to
a number n below 2^64, and it is then the level n converted to int32 with the
empty list; the number 1 converts to SOME_MSGS. -/
theorem authorize_builds_unvalidated_permission (env : Env) (fs : pflag.FlagSet) :
    (∀ args ctx m,
      (AuthorizeCircuitBreakerCmd.Execute env fs args).out =
        Outcome.broadcast ctx (sdk.Msg.Authorize m) →
      (args.length = 3 ∨ args.length = 4) ∧
      (args.length = 4 → m.Permissions.LimitTypeUrls ≠ []) ∧
      (args.length = 4 → m.Permissions.Level = types.Permissions_LEVEL_SOME_MSGS →
        m.Permissions.LimitTypeUrls ≠ []) ∧
      (args.length = 3 → m.Permissions.LimitTypeUrls = [])) ∧
    (∀ a0 a1 a2 ctx m,
      (AuthorizeCircuitBreakerCmd.Execute env fs [a0, a1, a2]).out =
        Outcome.broadcast ctx (sdk.Msg.Authorize m) ↔
      ∃ g n, env.GetClientTxContext (fs.Set flags.FlagFrom a0).1 = Except.ok ctx ∧
        env.AccAddressFromBech32 a1 = Except.ok g ∧
        env.ParseUint a2 = Except.ok n ∧ n < 2 ^ 64 ∧
        m = { Granter := ctx.GetFromAddress, Grantee := g,
              Permissions :=
                { Level := types.Permissions_Level n, LimitTypeUrls := [] } }) ∧
    types.Permissions_Level 1 = types.Permissions_LEVEL_SOME_MSGS := by
  refine ⟨?_, ?_, by decide⟩
  · intro args ctx m h
    have hacc := accepted_of_broadcast _ _ _ _ _ _ h
    rw [Execute_of_accepted _ _ _ _ hacc] at h
    obtain ⟨a0, a1, a2, g, n, -, -, -, -, -, -, -, hm⟩ :=
      Authorize_RunE_broadcast env fs args ctx _ h
    injection hm with hm
    subst hm
    refine ⟨(Authorize_ValidateArgs args).mp hacc, ?_, ?_, ?_⟩
    · intro h4
      simp only [if_pos h4]
      exact strings.Split_ne_nil _ _
    · intro h4 _
      simp only [if_pos h4]
      exact strings.Split_ne_nil _ _
    · intro h3
      have : ¬ args.length = 4 := by omega
      simp only [if_neg this]
  · intro a0 a1 a2 ctx m
    rw [Execute_of_accepted _ _ _ _
      ((Authorize_ValidateArgs [a0, a1, a2]).mpr (Or.inl rfl))]
    change (AuthorizeCircuitBreakerCmd.RunE env fs [a0, a1, a2]).out = _ ↔ _
    constructor
    · intro h
      obtain ⟨b0, b1, b2, g, n, h0, h1, h2, hc, hg, hn, hlt, hm⟩ :=
        Authorize_RunE_broadcast env fs [a0, a1, a2] ctx _ h
      simp only [List.getElem?_cons_zero, List.getElem?_cons_succ, Option.some.injEq]
        at h0 h1 h2
      subst h0 h1 h2
      injection hm with hm
      exact ⟨g, n, hc, hg, hn, hlt, by simpa using hm⟩
    · rintro ⟨g, n, hc, hg, hn, hlt, rfl⟩
      rw [Authorize_RunE_of_read env fs _ a0 a1 a2 g n ctx rfl rfl rfl hc hg hn hlt]
      simp

/-- Witness of the amended C3: the four arguments [alice, grantee, "1", ""]
are handed on as a level SOME_MSGS permission, and its list is not empty. -/
theorem authorize_builds_unvalidated_permission_witness :
    (AuthorizeCircuitBreakerCmd.Execute sample.env AuthorizeCircuitBreakerCmd.Flags
        [sample.granter, sample.grantee, "1", ""]).out =
      Outcome.broadcast { FromAddress := sample.granter } (sdk.Msg.Authorize
        { Granter := sample.granter, Grantee := sample.grantee,
          Permissions :=
            { Level := types.Permissions_LEVEL_SOME_MSGS, LimitTypeUrls := [""] } }) ∧
    ([""] : List String) ≠ [] :=
  ⟨by decide,
   ((authorize_builds_unvalidated_permission sample.env AuthorizeCircuitBreakerCmd.Flags).1
    [sample.granter, sample.grantee, "1", ""] { FromAddress := sample.granter }
    { Granter := sample.granter, Grantee := sample.grantee,
      Permissions := { Level := types.Permissions_LEVEL_SOME_MSGS, LimitTypeUrls := [""] } }
    (by decide)).2.2.1 (by decide) rfl⟩

/-- C4 fails as stated: the permission_level argument "7" parses, and the
Permission the Authorize command builds has level 7, none of NONE (0),
SOME_MSGS (1), ALL_MSGS (2), SUPER_ADMIN (3). -/
theorem authorize_level_seven :
    (AuthorizeCircuitBreakerCmd.Execute sample.env AuthorizeCircuitBreakerCmd.Flags
        [sample.granter, sample.grantee, "7"]).out =
      Outcome.broadcast { FromAddress := sample.granter } (sdk.Msg.Authorize
        { Granter := sample.granter, Grantee := sample.grantee,
          Permissions := { Level := 7, LimitTypeUrls := [] } }) ∧
    (7 : Int) ≠ types.Permissions_LEVEL_NONE_UNSPECIFIED ∧
    (7 : Int) ≠ types.Permissions_LEVEL_SOME_MSGS ∧
    (7 : Int) ≠ types.Permissions_LEVEL_ALL_MSGS ∧
    (7 : Int) ≠ types.Permissions_LEVEL_SUPER_ADMIN := by
  decide

/-- C4 as amended: whenever the Authorize command hands on a Permission, its
permission_level argument parsed to a number n below 2^64 and the level is n
converted to the int32 enum type, unchecked; the level is one of the four
enumerated levels exactly when n mod 2^32 is at most 3. -/
theorem authorize_level_is_converted_number (env : Env) (fs : pflag.FlagSet)
    (args : List String) (ctx : client.Context) (m : types.MsgAuthorizeCircuitBreaker)
    (h : (AuthorizeCircuitBreakerCmd.Execute env fs args).out =
      Outcome.broadcast ctx (sdk.Msg.Authorize m)) :
    ∃ a2 n, args[2]? = some a2 ∧ env.ParseUint a2 = Except.ok n ∧ n < 2 ^ 64 ∧
      m.Permissions.Level = types.Permissions_Level n ∧
      ((m.Permissions.Level = types.Permissions_LEVEL_NONE_UNSPECIFIED ∨
        m.Permissions.Level = types.Permissions_LEVEL_SOME_MSGS ∨
        m.Permissions.Level = types.Permissions_LEVEL_ALL_MSGS ∨
        m.Permissions.Level = types.Permissions_LEVEL_SUPER_ADMIN) ↔ n % 2 ^ 32 ≤ 3) := by
  have hacc := accepted_of_broadcast _ _ _ _ _ _ h
  rw [Execute_of_accepted _ _ _ _ hacc] at h
  obtain ⟨a0, a1, a2, g, n, -, -, h2, -, -, hn, hlt, hm⟩ :=
    Authorize_RunE_broadcast env fs args ctx _ h
  injection hm with hm
  subst hm
  refine ⟨a2, n, h2, hn, hlt, rfl, ?_⟩
  simp only [types.Permissions_Level, types.Permissions_LEVEL_NONE_UNSPECIFIED,
    types.Permissions_LEVEL_SOME_MSGS, types.Permissions_LEVEL_ALL_MSGS,
    types.Permissions_LEVEL_SUPER_ADMIN]
  norm_num
  split <;> omega

/-- Witness of the amended C4: the argument "3" is handed on as level
SUPER_ADMIN, the conversion of the parsed number, and 3 mod 2^32 is at most
3. -/
theorem authorize_level_is_converted_number_witness :
    (AuthorizeCircuitBreakerCmd.Execute sample.env AuthorizeCircuitBreakerCmd.Flags
        [sample.granter, sample.grantee, "3"]).out =
      Outcome.broadcast { FromAddress := sample.granter } (sdk.Msg.Authorize
        { Granter := sample.granter, Grantee := sample.grantee,
          Permissions :=
            { Level := types.Permissions_LEVEL_SUPER_ADMIN, LimitTypeUrls := [] } }) ∧
    ∃ a2 n, [sample.granter, sample.grantee, "3"][2]? = some a2 ∧
      sample.env.ParseUint a2 = Except.ok n ∧ n < 2 ^ 64 ∧
      types.Permissions_LEVEL_SUPER_ADMIN = types.Permissions_Level n ∧
      ((types.Permissions_LEVEL_SUPER_ADMIN = types.Permissions_LEVEL_NONE_UNSPECIFIED ∨
        types.Permissions_LEVEL_SUPER_ADMIN = types.Permissions_LEVEL_SOME_MSGS ∨
        types.Permissions_LEVEL_SUPER_ADMIN = types.Permissions_LEVEL_ALL_MSGS ∨
        types.Permissions_LEVEL_SUPER_ADMIN = types.Permissions_LEVEL_SUPER_ADMIN) ↔
        n % 2 ^ 32 ≤ 3) :=
  ⟨by decide,
   authorize_level_is_converted_number sample.env AuthorizeCircuitBreakerCmd.Flags
    [sample.granter, sample.grantee, "3"] { FromAddress := sample.granter }
    { Granter := sample.granter, Grantee := sample.grantee,
      Permissions := { Level := types.Permissions_LEVEL_SUPER_ADMIN, LimitTypeUrls := [] } }
    (by decide)⟩

/-- C5, the code at the documented Authorize example: the arguments
[alice, grantee, "0", "cosmos.bank.v1beta1.MsgSend,cosmos.bank.v1beta1.MsgMultiSend"]
build a Permission of level NONE (0) with the two type URLs, and
CanTripOrReset is false on it for both of them; with level SOME_MSGS and the
same list it would be true. -/
theorem authorize_documented_example_grants_nothing :
    (AuthorizeCircuitBreakerCmd.Execute sample.env AuthorizeCircuitBreakerCmd.Flags
        [sample.granter, sample.grantee, "0", sample.documentedUrls]).out =
      Outcome.broadcast { FromAddress := sample.granter } (sdk.Msg.Authorize
        { Granter := sample.granter, Grantee := sample.grantee,
          Permissions :=
            { Level := types.Permissions_LEVEL_NONE_UNSPECIFIED,
              LimitTypeUrls := [sample.MsgSend, sample.MsgMultiSend] } }) ∧
    keeper.CanTripOrReset
      { Level := types.Permissions_LEVEL_NONE_UNSPECIFIED,
        LimitTypeUrls := [sample.MsgSend, sample.MsgMultiSend] } sample.MsgSend = false ∧
    keeper.CanTripOrReset
      { Level := types.Permissions_LEVEL_NONE_UNSPECIFIED,
        LimitTypeUrls := [sample.MsgSend, sample.MsgMultiSend] } sample.MsgMultiSend = false ∧
    keeper.CanTripOrReset
      { Level := types.Permissions_LEVEL_SOME_MSGS,
        LimitTypeUrls := [sample.MsgSend, sample.MsgMultiSend] } sample.MsgSend = true ∧
    keeper.CanTripOrReset
      { Level := types.Permissions_LEVEL_SOME_MSGS,
        LimitTypeUrls := [sample.MsgSend, sample.MsgMultiSend] } sample.MsgMultiSend = true := by
  decide

/-- C6: the Trip and the Reset command accept exactly the argument lists of
length 1, for which the guard len(args) == 4 is false; every message either
command hands on has the empty type-URL list, and on an accepted list [a]
whose signer resolves the message is built, with the empty list, whatever a
is. -/
theorem trip_reset_split_branch_dead (env : Env) (fs : pflag.FlagSet) (args : List String) :
    (TripCircuitBreakerCmd.ValidateArgs args = none ↔ args.length = 1) ∧
    (ResetCircuitBreakerCmd.ValidateArgs args = none ↔ args.length = 1) ∧
    (args.length = 1 → decide (args.length = 4) = false) ∧
    (∀ ctx msg, (TripCircuitBreakerCmd.Execute env fs args).out = Outcome.broadcast ctx msg →
      msg = sdk.Msg.Trip (types.NewMsgTripCircuitBreaker ctx.GetFromAddress [])) ∧
    (∀ ctx msg, (ResetCircuitBreakerCmd.Execute env fs args).out = Outcome.broadcast ctx msg →
      msg = sdk.Msg.Reset (types.NewMsgResetCircuitBreaker ctx.GetFromAddress [])) ∧
    (∀ a ctx, args = [a] →
      env.GetClientTxContext (fs.Set flags.FlagFrom a).1 = Except.ok ctx →
      (TripCircuitBreakerCmd.Execute env fs args).out = Outcome.broadcast ctx
        (sdk.Msg.Trip (types.NewMsgTripCircuitBreaker ctx.GetFromAddress [])) ∧
      (ResetCircuitBreakerCmd.Execute env fs args).out = Outcome.broadcast ctx
        (sdk.Msg.Reset (types.NewMsgResetCircuitBreaker ctx.GetFromAddress []))) := by
  refine ⟨Trip_ValidateArgs args, Reset_ValidateArgs args, ?_, ?_, ?_, ?_⟩
  · intro h1
    simp [h1]
  · intro ctx msg h
    have hacc := accepted_of_broadcast _ _ _ _ _ _ h
    obtain ⟨a, rfl⟩ := length_one_eq args ((Trip_ValidateArgs args).mp hacc)
    rw [Execute_of_accepted _ _ _ _ hacc] at h
    change (TripCircuitBreakerCmd.RunE env fs [a]).out = _ at h
    rw [Trip_RunE_one] at h
    cases hc : env.GetClientTxContext (fs.Set flags.FlagFrom a).1 with
    | error e => simp [hc] at h
    | ok c =>
      simp only [hc, Outcome.broadcast.injEq] at h
      obtain ⟨rfl, rfl⟩ := h
      rfl
  · intro ctx msg h
    have hacc := accepted_of_broadcast _ _ _ _ _ _ h
    obtain ⟨a, rfl⟩ := length_one_eq args ((Reset_ValidateArgs args).mp hacc)
    rw [Execute_of_accepted _ _ _ _ hacc] at h
    change (ResetCircuitBreakerCmd.RunE env fs [a]).out = _ at h
    rw [Reset_RunE_one] at h
    cases hc : env.GetClientTxContext (fs.Set flags.FlagFrom a).1 with
    | error e => simp [hc] at h
    | ok c =>
      simp only [hc, Outcome.broadcast.injEq] at h
      obtain ⟨rfl, rfl⟩ := h
      rfl
  · rintro a ctx rfl hc
    constructor
    · rw [Execute_of_accepted _ _ _ _ ((Trip_ValidateArgs [a]).mpr rfl)]
      change (TripCircuitBreakerCmd.RunE env fs [a]).out = _
      rw [Trip_RunE_one]
      simp only [hc]
      rfl
    · rw [Execute_of_accepted _ _ _ _ ((Reset_ValidateArgs [a]).mpr rfl)]
      change (ResetCircuitBreakerCmd.RunE env fs [a]).out = _
      rw [Reset_RunE_one]
      simp only [hc]
      rfl

/-- Witness of C6: on the documented argument the Reset command builds a
message with the empty type-URL list. -/
theorem trip_reset_split_branch_dead_witness :
    (ResetCircuitBreakerCmd.Execute sample.env ResetCircuitBreakerCmd.Flags
        [sample.documentedUrls]).out =
      Outcome.broadcast { FromAddress := sample.documentedUrls } (sdk.Msg.Reset
        (types.NewMsgResetCircuitBreaker sample.documentedUrls [])) :=
  ((trip_reset_split_branch_dead sample.env ResetCircuitBreakerCmd.Flags
    [sample.documentedUrls]).2.2.2.2.2 sample.documentedUrls
    { FromAddress := sample.documentedUrls } rfl rfl).2

/-- C7: the Authorize command accepts exactly the argument lists of length 3
or 4.  With 4 arguments the LimitTypeUrls of every Permission it hands on is
the fourth argument split at every comma, in order: it is a non-empty list of
comma-free pieces whose join with "," is the argument, and it is the only
such list (so it equals strings.Split of the argument); the documented
argument gives the two documented identifiers, and "a,,b," gives
["a", "", "b", ""].  With 3 arguments the list is empty.  The Permission is
built once the signer, the grantee and the level are read. -/
theorem authorize_limit_urls_from_fourth_arg (env : Env) (fs : pflag.FlagSet) :
    (∀ args, AuthorizeCircuitBreakerCmd.ValidateArgs args = none ↔
      args.length = 3 ∨ args.length = 4) ∧
    (∀ a0 a1 a2 a3 ctx m,
      (AuthorizeCircuitBreakerCmd.Execute env fs [a0, a1, a2, a3]).out =
        Outcome.broadcast ctx (sdk.Msg.Authorize m) →
      m.Permissions.LimitTypeUrls = strings.Split a3 ',' ∧
      m.Permissions.LimitTypeUrls ≠ [] ∧
      (∀ e ∈ m.Permissions.LimitTypeUrls, strings.ContainsRune e ',' = false) ∧
      strings.Join m.Permissions.LimitTypeUrls "," = a3 ∧
      (∀ pieces : List String, pieces ≠ [] →
        (∀ e ∈ pieces, strings.ContainsRune e ',' = false) →
        strings.Join pieces "," = a3 → m.Permissions.LimitTypeUrls = pieces)) ∧
    (∀ a0 a1 a2 ctx m,
      (AuthorizeCircuitBreakerCmd.Execute env fs [a0, a1, a2, sample.documentedUrls]).out =
        Outcome.broadcast ctx (sdk.Msg.Authorize m) →
      m.Permissions.LimitTypeUrls = [sample.MsgSend, sample.MsgMultiSend]) ∧
    (∀ a0 a1 a2 ctx m,
      (AuthorizeCircuitBreakerCmd.Execute env fs [a0, a1, a2, "a,,b,"]).out =
        Outcome.broadcast ctx (sdk.Msg.Authorize m) →
      m.Permissions.LimitTypeUrls = ["a", "", "b", ""]) ∧
    (∀ a0 a1 a2 ctx m,
      (AuthorizeCircuitBreakerCmd.Execute env fs [a0, a1, a2]).out =
        Outcome.broadcast ctx (sdk.Msg.Authorize m) →
      m.Permissions.LimitTypeUrls = []) ∧
    (∀ a0 a1 a2 a3 ctx g n,
      env.GetClientTxContext (fs.Set flags.FlagFrom a0).1 = Except.ok ctx →
      env.AccAddressFromBech32 a1 = Except.ok g →
      env.ParseUint a2 = Except.ok n → n < 2 ^ 64 →
      (AuthorizeCircuitBreakerCmd.Execute env fs [a0, a1, a2, a3]).out =
        Outcome.broadcast ctx (sdk.Msg.Authorize
          { Granter := ctx.GetFromAddress, Grantee := g,
            Permissions :=
              { Level := types.Permissions_Level n,
                LimitTypeUrls := strings.Split a3 ',' } }) ∧
      (AuthorizeCircuitBreakerCmd.Execute env fs [a0, a1, a2]).out =
        Outcome.broadcast ctx (sdk.Msg.Authorize
          { Granter := ctx.GetFromAddress, Grantee := g,
            Permissions :=
              { Level := types.Permissions_Level n, LimitTypeUrls := [] } })) ∧
    strings.Split sample.documentedUrls ',' = [sample.MsgSend, sample.MsgMultiSend] := by
  have hfour : ∀ a0 a1 a2 a3 ctx m,
      (AuthorizeCircuitBreakerCmd.Execute env fs [a0, a1, a2, a3]).out =
        Outcome.broadcast ctx (sdk.Msg.Authorize m) →
      m.Permissions.LimitTypeUrls = strings.Split a3 ',' := by
    intro a0 a1 a2 a3 ctx m h
    rw [Execute_of_accepted _ _ _ _
      ((Authorize_ValidateArgs [a0, a1, a2, a3]).mpr (Or.inr rfl))] at h
    obtain ⟨b0, b1, b2, g, n, -, -, -, -, -, -, -, hm⟩ :=
      Authorize_RunE_broadcast env fs [a0, a1, a2, a3] ctx _ h
    injection hm with hm
    subst hm
    simp
  refine ⟨Authorize_ValidateArgs, ?_, ?_, ?_, ?_, ?_, by decide⟩
  · intro a0 a1 a2 a3 ctx m h
    have hl := hfour a0 a1 a2 a3 ctx m h
    rw [hl]
    refine ⟨rfl, strings.Split_ne_nil _ _,
      fun e he => strings.ContainsRune_of_mem_Split _ _ e he, strings.Join_Split a3 ',', ?_⟩
    intro pieces hne hp hj
    rw [← hj]
    exact strings.Split_Join pieces ',' hne hp
  · intro a0 a1 a2 ctx m h
    rw [hfour a0 a1 a2 _ ctx m h]
    decide
  · intro a0 a1 a2 ctx m h
    rw [hfour a0 a1 a2 _ ctx m h]
    decide
  · intro a0 a1 a2 ctx m h
    rw [Execute_of_accepted _ _ _ _
      ((Authorize_ValidateArgs [a0, a1, a2]).mpr (Or.inl rfl))] at h
    obtain ⟨b0, b1, b2, g, n, -, -, -, -, -, -, -, hm⟩ :=
      Authorize_RunE_broadcast env fs [a0, a1, a2] ctx _ h
    injection hm with hm
    subst hm
    simp
  · intro a0 a1 a2 a3 ctx g n hc hg hn hlt
    constructor
    · rw [Execute_of_accepted _ _ _ _
        ((Authorize_ValidateArgs [a0, a1, a2, a3]).mpr (Or.inr rfl))]
      change (AuthorizeCircuitBreakerCmd.RunE env fs [a0, a1, a2, a3]).out = _
      rw [Authorize_RunE_of_read env fs _ a0 a1 a2 g n ctx rfl rfl rfl hc hg hn hlt]
      simp
    · rw [Execute_of_accepted _ _ _ _
        ((Authorize_ValidateArgs [a0, a1, a2]).mpr (Or.inl rfl))]
      change (AuthorizeCircuitBreakerCmd.RunE env fs [a0, a1, a2]).out = _
      rw [Authorize_RunE_of_read env fs _ a0 a1 a2 g n ctx rfl rfl rfl hc hg hn hlt]
      simp

/-- Witness of C7: the four arguments [alice, grantee, "1", "a,,b,"] are
handed on with the list ["a", "", "b", ""], which is the split of the fourth
argument, made of comma-free pieces whose join is the argument, and the only
such list. -/
theorem authorize_limit_urls_from_fourth_arg_witness :
    (AuthorizeCircuitBreakerCmd.Execute sample.env AuthorizeCircuitBreakerCmd.Flags
        [sample.granter, sample.grantee, "1", "a,,b,"]).out =
      Outcome.broadcast { FromAddress := sample.granter } (sdk.Msg.Authorize
        { Granter := sample.granter, Grantee := sample.grantee,
          Permissions :=
            { Level := types.Permissions_LEVEL_SOME_MSGS,
              LimitTypeUrls := ["a", "", "b", ""] } }) ∧
    (["a", "", "b", ""] : List String) = strings.Split "a,,b," ',' ∧
    (["a", "", "b", ""] : List String) ≠ [] ∧
    (∀ e ∈ (["a", "", "b", ""] : List String), strings.ContainsRune e ',' = false) ∧
    strings.Join ["a", "", "b", ""] "," = "a,,b," ∧
    (∀ pieces : List String, pieces ≠ [] →
      (∀ e ∈ pieces, strings.ContainsRune e ',' = false) →
      strings.Join pieces "," = "a,,b," → (["a", "", "b", ""] : List String) = pieces) :=
  ⟨by decide,
   (authorize_limit_urls_from_fourth_arg sample.env AuthorizeCircuitBreakerCmd.Flags).2.1
    sample.granter sample.grantee "1" "a,,b,"
    { FromAddress := sample.granter }
    { Granter := sample.granter, Grantee := sample.grantee,
      Permissions :=
        { Level := types.Permissions_LEVEL_SOME_MSGS,
          LimitTypeUrls := ["a", "", "b", ""] } }
    (by decide)⟩

/-- C8: whenever the Authorize command hands on a Permission built from four
arguments with fourth argument s, its LimitTypeUrls list is non-empty, has
(number of commas in s) + 1 elements, none of them contains a comma, joining
them with "," gives s, and for s = "" the list is [""] . -/
theorem authorize_fourth_arg_split_shape (env : Env) (fs : pflag.FlagSet)
    (a0 a1 a2 s : String) (ctx : client.Context) (m : types.MsgAuthorizeCircuitBreaker)
    (h : (AuthorizeCircuitBreakerCmd.Execute env fs [a0, a1, a2, s]).out =
      Outcome.broadcast ctx (sdk.Msg.Authorize m)) :
    m.Permissions.LimitTypeUrls ≠ [] ∧
    m.Permissions.LimitTypeUrls.length = strings.Count s ',' + 1 ∧
    (∀ e ∈ m.Permissions.LimitTypeUrls, strings.ContainsRune e ',' = false) ∧
    strings.Join m.Permissions.LimitTypeUrls "," = s ∧
    (s = "" → m.Permissions.LimitTypeUrls = [""]) := by
  rw [Execute_of_accepted _ _ _ _
    ((Authorize_ValidateArgs [a0, a1, a2, s]).mpr (Or.inr rfl))] at h
  obtain ⟨b0, b1, b2, g, n, -, -, -, -, -, -, -, hm⟩ :=
    Authorize_RunE_broadcast env fs [a0, a1, a2, s] ctx _ h
  injection hm with hm
  subst hm
  have hl : (if [a0, a1, a2, s].length = 4 then strings.Split ([a0, a1, a2, s].getD 3 "") ','
      else []) = strings.Split s ',' := by simp
  simp only [hl]
  refine ⟨strings.Split_ne_nil _ _, strings.length_Split _ _,
    fun e he => strings.ContainsRune_of_mem_Split _ _ e he, strings.Join_Split s ',', ?_⟩
  rintro rfl
  exact strings.Split_empty ','

/-- Witness of C8: the empty fourth argument is handed on as the one-element
list holding the empty identifier, which has the stated shape. -/
theorem authorize_fourth_arg_split_shape_witness :
    (AuthorizeCircuitBreakerCmd.Execute sample.env AuthorizeCircuitBreakerCmd.Flags
        [sample.granter, sample.grantee, "1", ""]).out =
      Outcome.broadcast { FromAddress := sample.granter } (sdk.Msg.Authorize
        { Granter := sample.granter, Grantee := sample.grantee,
          Permissions :=
            { Level := types.Permissions_LEVEL_SOME_MSGS, LimitTypeUrls := [""] } }) ∧
    ([""] : List String) ≠ [] ∧
    ([""] : List String).length = strings.Count "" ',' + 1 ∧
    (∀ e ∈ ([""] : List String), strings.ContainsRune e ',' = false) ∧
    strings.Join [""] "," = "" ∧
    ("" = "" → ([""] : List String) = [""]) :=
  ⟨by decide,
   authorize_fourth_arg_split_shape sample.env AuthorizeCircuitBreakerCmd.Flags
    sample.granter sample.grantee "1" "" { FromAddress := sample.granter }
    { Granter := sample.granter, Grantee := sample.grantee,
      Permissions := { Level := types.Permissions_LEVEL_SOME_MSGS, LimitTypeUrls := [""] } }
    (by decide)⟩

/-- C9: on a flag set that defines the from flag, as the flag sets of the
three commands do, the Trip and the Reset command leave the from flag set to
their sole argument, and the Authorize command, given 3 or 4 arguments,
leaves it set to its first argument. -/
theorem commands_set_from_flag_to_first_arg (env : Env) (fs : pflag.FlagSet)
    (hfrom : fs.Defined flags.FlagFrom = true) :
    (∀ a, (TripCircuitBreakerCmd.Execute env fs [a]).flags.GetString flags.FlagFrom
      = some a) ∧
    (∀ a, (ResetCircuitBreakerCmd.Execute env fs [a]).flags.GetString flags.FlagFrom
      = some a) ∧
    (∀ a0 rest, rest.length = 2 ∨ rest.length = 3 →
      (AuthorizeCircuitBreakerCmd.Execute env fs (a0 :: rest)).flags.GetString flags.FlagFrom
        = some a0) ∧
    TripCircuitBreakerCmd.Flags.Defined flags.FlagFrom = true ∧
    ResetCircuitBreakerCmd.Flags.Defined flags.FlagFrom = true ∧
    AuthorizeCircuitBreakerCmd.Flags.Defined flags.FlagFrom = true := by
  refine ⟨?_, ?_, ?_, by decide, by decide, by decide⟩
  · intro a
    rw [Execute_of_accepted _ _ _ _ ((Trip_ValidateArgs [a]).mpr rfl)]
    change (TripCircuitBreakerCmd.RunE env fs [a]).flags.GetString _ = _
    rw [Trip_RunE_one]
    exact pflag.FlagSet.GetString_Set fs _ a hfrom
  · intro a
    rw [Execute_of_accepted _ _ _ _ ((Reset_ValidateArgs [a]).mpr rfl)]
    change (ResetCircuitBreakerCmd.RunE env fs [a]).flags.GetString _ = _
    rw [Reset_RunE_one]
    exact pflag.FlagSet.GetString_Set fs _ a hfrom
  · intro a0 rest hrest
    have hlen : (a0 :: rest).length = 3 ∨ (a0 :: rest).length = 4 := by
      simp only [List.length_cons]; omega
    rw [Execute_of_accepted _ _ _ _ ((Authorize_ValidateArgs _).mpr hlen)]
    change (AuthorizeCircuitBreakerCmd.RunE env fs (a0 :: rest)).flags.GetString _ = _
    rw [Authorize_RunE_flags env fs (a0 :: rest) a0 (by simp)]
    exact pflag.FlagSet.GetString_Set fs _ a0 hfrom

/-- Witness of C9: run on its own flag set with the documented argument, the
Trip command leaves the from flag set to that argument. -/
theorem commands_set_from_flag_to_first_arg_witness :
    (TripCircuitBreakerCmd.Execute sample.env TripCircuitBreakerCmd.Flags
      [sample.documentedUrls]).flags.GetString flags.FlagFrom = some sample.documentedUrls :=
  (commands_set_from_flag_to_first_arg sample.env TripCircuitBreakerCmd.Flags
    (by decide)).1 sample.documentedUrls

end cli
